import Mathlib

/-!
Verification of the outline-to-report transformation of `main.py`
(`build_report` and its helper patterns).

The Python program is shallowly embedded: strings are processed as `List Char`,
the regular expressions `_CHECKBOX_PATTERN` and `_BULLET_PATTERN` are unfolded
into explicit scanning functions with the same matching semantics on the
newline-free lines they are applied to, and the imperative loop of
`build_report` becomes a fold over a per-line transition function on an
explicit state record.  All definitions are structural, so they evaluate on
concrete inputs.
-/

/-- Python whitespace (the set recognised by `str.strip`, `str.isspace` and by
regex `\s` on text patterns): ASCII whitespace, the C1 separators, NEL, NBSP
and the Unicode space separators. -/
def pyIsSpace (c : Char) : Bool :=
  c == ' ' || c == '\t' || c == '\n' || c == '\x0b' || c == '\x0c' || c == '\r' ||
  c == '\x1c' || c == '\x1d' || c == '\x1e' || c == '\x1f' || c == '\x85' ||
  c == '\xa0' || c == ' ' ||
  (decide (0x2000 ≤ c.toNat) && decide (c.toNat ≤ 0x200a)) ||
  c == ' ' || c == ' ' || c == ' ' || c == ' ' || c == '　'

/-- The code points of Unicode category Nd (decimal digits), as ranges: the
set matched by regex `\d` on Python text patterns (equivalently
`str.isdecimal`). -/
def ndDigitRanges : List (Nat × Nat) :=
  [(0x30, 0x39), (0x660, 0x669), (0x6F0, 0x6F9), (0x7C0, 0x7C9), (0x966, 0x96F),
   (0x9E6, 0x9EF), (0xA66, 0xA6F), (0xAE6, 0xAEF), (0xB66, 0xB6F), (0xBE6, 0xBEF),
   (0xC66, 0xC6F), (0xCE6, 0xCEF), (0xD66, 0xD6F), (0xDE6, 0xDEF), (0xE50, 0xE59),
   (0xED0, 0xED9), (0xF20, 0xF29), (0x1040, 0x1049), (0x1090, 0x1099),
   (0x17E0, 0x17E9), (0x1810, 0x1819), (0x1946, 0x194F), (0x19D0, 0x19D9),
   (0x1A80, 0x1A89), (0x1A90, 0x1A99), (0x1B50, 0x1B59), (0x1BB0, 0x1BB9),
   (0x1C40, 0x1C49), (0x1C50, 0x1C59), (0xA620, 0xA629), (0xA8D0, 0xA8D9),
   (0xA900, 0xA909), (0xA9D0, 0xA9D9), (0xA9F0, 0xA9F9), (0xAA50, 0xAA59),
   (0xABF0, 0xABF9), (0xFF10, 0xFF19), (0x104A0, 0x104A9), (0x10D30, 0x10D39),
   (0x11066, 0x1106F), (0x110F0, 0x110F9), (0x11136, 0x1113F), (0x111D0, 0x111D9),
   (0x112F0, 0x112F9), (0x11450, 0x11459), (0x114D0, 0x114D9), (0x11650, 0x11659),
   (0x116C0, 0x116C9), (0x11730, 0x11739), (0x118E0, 0x118E9), (0x11950, 0x11959),
   (0x11C50, 0x11C59), (0x11D50, 0x11D59), (0x11DA0, 0x11DA9), (0x16A60, 0x16A69),
   (0x16AC0, 0x16AC9), (0x16B50, 0x16B59), (0x1D7CE, 0x1D7FF), (0x1E140, 0x1E149),
   (0x1E2F0, 0x1E2F9), (0x1E950, 0x1E959), (0x1FBF0, 0x1FBF9)]

/-- Python regex `\d` on text patterns: any Unicode decimal digit (category
Nd), not only the ASCII digits. -/
def pyIsDigit (c : Char) : Bool :=
  ndDigitRanges.any (fun r => decide (r.1 ≤ c.toNat) && decide (c.toNat ≤ r.2))

/-- Python `str.strip()` with no arguments: remove leading and trailing
whitespace. -/
def pyStrip (l : List Char) : List Char :=
  ((l.dropWhile pyIsSpace).reverse.dropWhile pyIsSpace).reverse

/-- Python `str.rstrip("\r\n")`: remove trailing carriage returns and
newlines. -/
def pyRstripRN (l : List Char) : List Char :=
  (l.reverse.dropWhile (fun c => c == '\r' || c == '\n')).reverse

/-- The column-tracking worker of Python `str.expandtabs(4)`: a tab is replaced
by spaces up to the next multiple-of-4 column; `\n` and `\r` reset the column;
every other character advances it by one. -/
def expandtabsGo (col : Nat) : List Char → List Char
  | [] => []
  | c :: cs =>
    if c == '\t' then
      List.replicate (4 - col % 4) ' ' ++ expandtabsGo (col + (4 - col % 4)) cs
    else if c == '\n' || c == '\r' then
      c :: expandtabsGo 0 cs
    else
      c :: expandtabsGo (col + 1) cs

/-- Python `str.expandtabs(4)`. -/
def pyExpandtabs4 (l : List Char) : List Char := expandtabsGo 0 l

/-- Python line-boundary characters used by `str.splitlines`. -/
def isLineBreak (c : Char) : Bool :=
  c == '\n' || c == '\r' || c == '\x0b' || c == '\x0c' ||
  c == '\x1c' || c == '\x1d' || c == '\x1e' || c == '\x85' ||
  c == ' ' || c == ' '

/-- Worker for `str.splitlines`: `cur` is the current line accumulated in
reverse; `\r\n` counts as a single boundary; a final fragment without a
terminator is kept, an empty one is not. -/
def splitlinesGo (cur : List Char) : List Char → List (List Char)
  | [] => if cur.isEmpty then [] else [cur.reverse]
  | '\r' :: '\n' :: rest => cur.reverse :: splitlinesGo [] rest
  | c :: rest =>
    if isLineBreak c then cur.reverse :: splitlinesGo [] rest
    else splitlinesGo (c :: cur) rest

/-- Python `str.splitlines()`. -/
def pySplitlines (l : List Char) : List (List Char) := splitlinesGo [] l

/-- `line = raw_line.expandtabs(4).rstrip("\r\n")` (main.py line 134). -/
def normLine (raw : List Char) : List Char := pyRstripRN (pyExpandtabs4 raw)

/-- `indent = len(line) - len(line.lstrip(" "))` (main.py line 136): the count
of leading space characters of the normalised line. -/
def indentOf (raw : List Char) : Nat :=
  (normLine raw).length - ((normLine raw).dropWhile (fun c => c == ' ')).length

/-- `content = line.lstrip()` (main.py line 137). -/
def contentOf (raw : List Char) : List Char :=
  (normLine raw).dropWhile pyIsSpace

/-- The `\[\s*\]` part of `_CHECKBOX_PATTERN` after the opening bracket:
consume whitespace until a closing bracket and return the remainder (the
second capture group), or fail.  The whitespace run is necessarily maximal
because a closing bracket is not whitespace. -/
def wsClose : List Char → Option (List Char)
  | [] => none
  | c :: cs => if c == ']' then some cs else if pyIsSpace c then wsClose cs else none

/-- `_CHECKBOX_PATTERN.search(content)` for `re.compile(r"(.*?)\[\s*\](.*)")`:
on the newline-free strings it is applied to, the lazy leading group makes the
search return the text before the first empty-bracket token together with the
text after it. -/
def checkboxScan : List Char → Option (List Char × List Char)
  | [] => none
  | c :: cs =>
    if c == '[' then
      match wsClose cs with
      | some post => some ([], post)
      | none =>
        match checkboxScan cs with
        | some pq => some (c :: pq.1, pq.2)
        | none => none
    else
      match checkboxScan cs with
      | some pq => some (c :: pq.1, pq.2)
      | none => none

/-- The bullet marker class `[-*•◦▪]` of `_BULLET_PATTERN`. -/
def isBulletGlyph (c : Char) : Bool :=
  c == '-' || c == '*' || c == '•' || c == '◦' || c == '▪'

/-- The `\s+(.*)` tail of `_BULLET_PATTERN`: require at least one whitespace
character after the marker and capture the rest (the capture group starts
after the maximal whitespace run). -/
def afterMarker : List Char → Option (List Char)
  | [] => none
  | c :: r => if pyIsSpace c then some (r.dropWhile pyIsSpace) else none

/-- `_BULLET_PATTERN.match(content)` for
`re.compile(r"^\s*(?:[-*•◦▪]|\d+\.)\s+(.*)")`, returning the capture group;
`\d` matches any Unicode Nd digit. -/
def bulletMatch (content : List Char) : Option (List Char) :=
  match content.dropWhile pyIsSpace with
  | [] => none
  | c :: rest =>
    if isBulletGlyph c then afterMarker rest
    else if pyIsDigit c then
      match (c :: rest).dropWhile pyIsDigit with
      | '.' :: r => afterMarker r
      | _ => none
    else none

/-- `re.sub(r"^(?:[-*•◦▪]|\d+\.)\s*", "", pre)` (main.py line 148): strip one
leading bullet marker or numeric enumeration (Unicode Nd digits for `\d`),
with any following whitespace. -/
def stripMarker (pre : List Char) : List Char :=
  match pre with
  | [] => []
  | c :: rest =>
    if isBulletGlyph c then rest.dropWhile pyIsSpace
    else if pyIsDigit c then
      match (c :: rest).dropWhile pyIsDigit with
      | '.' :: r => r.dropWhile pyIsSpace
      | _ => pre
    else pre

/-- Classification of a line's content (main.py lines 140–158): a checkbox
match takes priority over a bullet match; anything else is not a list item. -/
inductive LineClass where
  | checkbox (text : String)
  | bullet (text : String)
deriving Repr, DecidableEq

/-- The item text carried by either kind of list line. -/
def LineClass.text : LineClass → String
  | .checkbox t => t
  | .bullet t => t

/-- Lines 140–158 of main.py: try the checkbox pattern, then the bullet
pattern; build the item text accordingly (`pre_clean` joined with `post` by a
single space when both are non-empty, otherwise `pre_clean or post`). -/
def classify (content : List Char) : Option LineClass :=
  match checkboxScan content with
  | some pq =>
    let pre_clean := stripMarker (pyStrip pq.1)
    let post := pyStrip pq.2
    let item_text :=
      if !pre_clean.isEmpty && !post.isEmpty then pre_clean ++ ' ' :: post
      else if !pre_clean.isEmpty then pre_clean
      else post
    some (.checkbox (String.mk item_text))
  | none =>
    match bulletMatch content with
    | some g1 => some (.bullet (String.mk (pyStrip g1)))
    | none => none

/-- The `indent <= collect_indent` test guarded by `collect_indent is not
None` (main.py line 163). -/
def ciLE (indent : Nat) : Option Nat → Bool
  | some c => decide (indent ≤ c)
  | none => false

/-- The while loop of main.py lines 161–166, written on the reversed stack
(topmost entry first): pop while the current indent is ≤ the top entry's
indent, deactivating collecting mode when the indent is also ≤ the recorded
collection indent. -/
def popLoopRev (indent : Nat) :
    List (Nat × String) → Bool → Option Nat → List (Nat × String) × Bool × Option Nat
  | [], col, ci => ([], col, ci)
  | top :: rest, col, ci =>
    if indent ≤ top.1 then
      if col && ciLE indent ci then popLoopRev indent rest false none
      else popLoopRev indent rest col ci
    else (top :: rest, col, ci)

/-- The stack-adjustment loop on the stack in Python order (bottom of the
stack first, top at the end, as in `stack[-1]` / `stack.pop()`). -/
def popLoop (indent : Nat) (st : List (Nat × String)) (col : Bool) (ci : Option Nat) :
    List (Nat × String) × Bool × Option Nat :=
  let r := popLoopRev indent st.reverse col ci
  (r.1.reverse, r.2.1, r.2.2)

/-- One report line: `f"{'  ' * level}- {txt}"` (main.py lines 175 and 187). -/
def fmtLine (level : Nat) (txt : String) : String :=
  String.mk (List.replicate (2 * level) ' ') ++ "- " ++ txt

/-- One iteration of the emission loop of main.py lines 172–175: a blank
separator before the level-0 entry, then the formatted line. -/
def emitStep (p : Nat × Nat × String) : List String :=
  (if p.1 = 0 then [""] else []) ++ [fmtLine p.1 p.2.2]

/-- The emission loop of main.py lines 172–175 over the enumerated stack. -/
def chainOut (stack : List (Nat × String)) : List String :=
  (stack.enum.map emitStep).flatten

/-- The loop state of `build_report`: the produced output, the ancestor stack
of `(indent_level, item_text)` pairs, the collecting flag, the recorded
collection indent, and the (never read) `root_stack_len`. -/
structure RState where
  output : List String
  stack : List (Nat × String)
  collecting : Bool
  collect_indent : Option Nat
  root_stack_len : Nat
deriving Repr, DecidableEq

/-- The body of the `for raw_line in text.splitlines()` loop of `build_report`
(main.py lines 129–187). -/
def processLine (s : RState) (raw : List Char) : RState :=
  if (pyStrip raw).isEmpty then s
  else
    match classify (contentOf raw) with
    | none => s
    | some cls =>
      let indent := indentOf raw
      let r := popLoop indent s.stack s.collecting s.collect_indent
      let stack' := r.1 ++ [(indent, cls.text)]
      match cls with
      | .checkbox _ =>
        { output := s.output ++ chainOut stack'
          stack := stack'
          collecting := true
          collect_indent := some indent
          root_stack_len := stack'.length }
      | .bullet t =>
        let emit := r.2.1 && (match r.2.2 with | some c => decide (c < indent) | none => false)
        { output := s.output ++ (if emit then [fmtLine (stack'.length - 1) t] else [])
          stack := stack'
          collecting := r.2.1
          collect_indent := r.2.2
          root_stack_len := s.root_stack_len }

/-- The initial loop state of `build_report` (main.py lines 120–127). -/
def initState : RState :=
  { output := [], stack := [], collecting := false, collect_indent := none,
    root_stack_len := 0 }

/-- `build_report` (main.py lines 111–189). -/
def build_report (text : String) : List String :=
  ((pySplitlines text.toList).foldl processLine initState).output

/-- The loop state of `build_report text` after its first `k` lines. -/
def reportState (text : String) (k : Nat) : RState :=
  ((pySplitlines text.toList).take k).foldl processLine initState

/-!  ## Supporting lemmas  -/

/-- Whether the while loop of main.py lines 161–166 executes at least one
iteration, phrased on the reversed stack (topmost entry first). -/
def loopEntered (indent : Nat) : List (Nat × String) → Bool
  | [] => false
  | top :: _ => decide (indent ≤ top.1)

theorem popLoopRev_fst (i : Nat) (l : List (Nat × String)) (c : Bool) (ci : Option Nat) :
    (popLoopRev i l c ci).1 = l.dropWhile (fun e => decide (i ≤ e.1)) := by
  induction l generalizing c ci with
  | nil => simp [popLoopRev]
  | cons top rest ih =>
    by_cases h : i ≤ top.1
    · rw [List.dropWhile_cons]
      simp only [popLoopRev, if_pos h, decide_eq_true h, if_pos rfl]
      split
      · exact ih false none
      · exact ih c ci
    · rw [List.dropWhile_cons]
      simp only [popLoopRev, if_neg h, decide_eq_false h]
      simp

theorem popLoopRev_snd (i : Nat) (l : List (Nat × String)) (c : Bool) (ci : Option Nat) :
    (popLoopRev i l c ci).2 =
      if loopEntered i l && (c && ciLE i ci) then (false, none) else (c, ci) := by
  induction l generalizing c ci with
  | nil => simp [popLoopRev, loopEntered]
  | cons top rest ih =>
    by_cases h : i ≤ top.1
    · simp only [popLoopRev, if_pos h, loopEntered, decide_eq_true h, Bool.true_and]
      by_cases hc : (c && ciLE i ci) = true
      · rw [if_pos hc, hc, if_pos rfl, ih false none]
        simp
      · have hc' : (c && ciLE i ci) = false := by
          cases hcc : (c && ciLE i ci) with
          | true => exact absurd hcc hc
          | false => rfl
        rw [if_neg hc, hc', if_neg (by simp), ih c ci, hc']
        simp
    · simp only [popLoopRev, if_neg h, loopEntered, decide_eq_false h, Bool.false_and,
        Bool.false_eq_true, if_false]

theorem popLoop_fst (i : Nat) (st : List (Nat × String)) (c : Bool) (ci : Option Nat) :
    (popLoop i st c ci).1 = (st.reverse.dropWhile (fun e => decide (i ≤ e.1))).reverse := by
  simp [popLoop, popLoopRev_fst]

theorem popLoop_snd (i : Nat) (st : List (Nat × String)) (c : Bool) (ci : Option Nat) :
    ((popLoop i st c ci).2.1, (popLoop i st c ci).2.2) =
      if loopEntered i st.reverse && (c && ciLE i ci) then (false, none) else (c, ci) := by
  simp [popLoop, popLoopRev_snd]

theorem ciLE_true_iff (i : Nat) (ci : Option Nat) :
    ciLE i ci = true ↔ ∃ c, ci = some c ∧ i ≤ c := by
  cases ci with
  | none => simp [ciLE]
  | some c => simp [ciLE]

/-- The stack before the pop loop decomposes into the surviving part and the
popped suffix. -/
theorem popLoop_decomp (i : Nat) (st : List (Nat × String)) (c : Bool) (ci : Option Nat) :
    st = (popLoop i st c ci).1 ++
      (st.reverse.takeWhile (fun e => decide (i ≤ e.1))).reverse := by
  rw [popLoop_fst]
  conv_lhs => rw [← List.reverse_reverse st,
    ← List.takeWhile_append_dropWhile (fun e => decide (i ≤ e.1)) st.reverse]
  rw [List.reverse_append]

theorem popLoop_dropped_ge (i : Nat) (st : List (Nat × String)) :
    ∀ e ∈ (st.reverse.takeWhile (fun e => decide (i ≤ e.1))).reverse, i ≤ e.1 := by
  intro e he
  rw [List.mem_reverse] at he
  have := List.mem_takeWhile_imp he
  exact of_decide_eq_true this

theorem popLoop_getLast_lt (i : Nat) (st : List (Nat × String)) (c : Bool) (ci : Option Nat) :
    (popLoop i st c ci).1 = [] ∨
      ∃ e, ((popLoop i st c ci).1).getLast? = some e ∧ e.1 < i := by
  rw [popLoop_fst]
  by_cases h : st.reverse.dropWhile (fun e => decide (i ≤ e.1)) = []
  · left; simp [h]
  · right
    refine ⟨(st.reverse.dropWhile (fun e => decide (i ≤ e.1))).head h, ?_, ?_⟩
    · rw [List.getLast?_reverse, List.head?_eq_head h]
    · have := List.head_dropWhile_not (fun e => decide (i ≤ e.1)) st.reverse h
      simp only [decide_eq_false_iff_not] at this
      exact Nat.lt_of_not_le this

theorem loopEntered_iff_dropped_ne (i : Nat) (st : List (Nat × String)) :
    loopEntered i st.reverse = true ↔
      (st.reverse.takeWhile (fun e => decide (i ≤ e.1))).reverse ≠ [] := by
  rw [ne_eq, List.reverse_eq_nil_iff]
  cases h : st.reverse with
  | nil => simp [loopEntered]
  | cons top rest =>
    rw [List.takeWhile_cons]
    by_cases hi : i ≤ top.1
    · simp [loopEntered, hi]
    · simp [loopEntered, hi]

/-- The emission loop of lines 172–175 on a non-empty stack: one blank line,
then one formatted line per stack entry at its index. -/
theorem flatten_emitStep_enumFrom (xs : List (Nat × String)) :
    ∀ n, n ≠ 0 →
      ((xs.enumFrom n).map emitStep).flatten =
        (xs.enumFrom n).map (fun p => fmtLine p.1 p.2.2) := by
  induction xs with
  | nil => intro n _; rfl
  | cons y ys ih =>
    intro n hn
    show ((emitStep (n, y)) :: (ys.enumFrom (n + 1)).map emitStep).flatten = _
    rw [List.flatten_cons, ih (n + 1) (Nat.succ_ne_zero n)]
    simp [emitStep, hn]

theorem chainOut_cons (x : Nat × String) (xs : List (Nat × String)) :
    chainOut (x :: xs) = "" :: (x :: xs).enum.map (fun p => fmtLine p.1 p.2.2) := by
  show ((emitStep (0, x)) :: (xs.enumFrom 1).map emitStep).flatten = _
  rw [List.flatten_cons, flatten_emitStep_enumFrom xs 1 (by decide)]
  rfl

theorem chainOut_of_ne_nil (l : List (Nat × String)) (h : l ≠ []) :
    chainOut l = "" :: l.enum.map (fun p => fmtLine p.1 p.2.2) := by
  cases l with
  | nil => exact absurd rfl h
  | cons x xs => exact chainOut_cons x xs

/-- A list never equals itself extended by one element. -/
theorem ne_append_singleton {α : Type} (l : List α) (x : α) : l ++ [x] ≠ l := by
  intro h
  have := congrArg List.length h
  simp at this

/-- `processLine` on a blank line does nothing. -/
theorem processLine_blank (s : RState) (raw : List Char)
    (hb : (pyStrip raw).isEmpty = true) : processLine s raw = s := by
  simp [processLine, hb]

/-- `processLine` on a non-blank line that is not a list item does nothing. -/
theorem processLine_skip (s : RState) (raw : List Char)
    (hc : classify (contentOf raw) = none) : processLine s raw = s := by
  by_cases hb : (pyStrip raw).isEmpty = true
  · exact processLine_blank s raw hb
  · simp only [Bool.not_eq_true] at hb
    simp [processLine, hb, hc]

/-- `processLine` on a checkbox line. -/
theorem processLine_checkbox (s : RState) (raw : List Char) (t : String)
    (hb : (pyStrip raw).isEmpty = false)
    (hc : classify (contentOf raw) = some (LineClass.checkbox t)) :
    processLine s raw =
      { output := s.output ++ chainOut
          ((popLoop (indentOf raw) s.stack s.collecting s.collect_indent).1
            ++ [(indentOf raw, t)])
        stack := (popLoop (indentOf raw) s.stack s.collecting s.collect_indent).1
            ++ [(indentOf raw, t)]
        collecting := true
        collect_indent := some (indentOf raw)
        root_stack_len :=
          ((popLoop (indentOf raw) s.stack s.collecting s.collect_indent).1
            ++ [(indentOf raw, t)]).length } := by
  simp [processLine, hb, hc, LineClass.text]

/-- `processLine` on a plain-bullet line. -/
theorem processLine_bullet (s : RState) (raw : List Char) (t : String)
    (hb : (pyStrip raw).isEmpty = false)
    (hc : classify (contentOf raw) = some (LineClass.bullet t)) :
    processLine s raw =
      { output := s.output ++
          (if (popLoop (indentOf raw) s.stack s.collecting s.collect_indent).2.1 &&
              (match (popLoop (indentOf raw) s.stack s.collecting s.collect_indent).2.2 with
                | some c => decide (c < indentOf raw)
                | none => false)
           then [fmtLine
              (((popLoop (indentOf raw) s.stack s.collecting s.collect_indent).1
                ++ [(indentOf raw, t)]).length - 1) t]
           else [])
        stack := (popLoop (indentOf raw) s.stack s.collecting s.collect_indent).1
            ++ [(indentOf raw, t)]
        collecting := (popLoop (indentOf raw) s.stack s.collecting s.collect_indent).2.1
        collect_indent := (popLoop (indentOf raw) s.stack s.collecting s.collect_indent).2.2
        root_stack_len := s.root_stack_len } := by
  simp [processLine, hb, hc, LineClass.text]

/-!  ## Claim theorems (part 1)  -/

/-- C6: `buildReport` applied to
`"- Parent\n  - [ ] Root task\n    - Child 1\n    - Child 2\n"` returns
exactly `["", "- Parent", "  - Root task", "    - Child 1", "    - Child 2"]`
(the scenario of `test_children_included`). -/
theorem children_included_scenario :
    build_report "- Parent\n  - [ ] Root task\n    - Child 1\n    - Child 2\n" =
      ["", "- Parent", "  - Root task", "    - Child 1", "    - Child 2"] := by
  decide

/-- C8: `buildReport` is a total function over arbitrary string input: it
terminates (it is defined by structural recursion throughout) and returns a
list of strings for every input, raising no exception. -/
theorem build_report_total (text : String) :
    ∃ out : List String, build_report text = out :=
  ⟨build_report text, rfl⟩

/-- C9: `buildReport` of the empty string is the empty sequence, and any input
none of whose non-blank lines matches the checkbox pattern or the bullet
pattern also produces the empty sequence. -/
theorem empty_or_unmatched_input_yields_empty :
    build_report "" = [] ∧
    ∀ text : String,
      (∀ raw ∈ pySplitlines text.toList, (pyStrip raw).isEmpty = false →
        checkboxScan (contentOf raw) = none ∧ bulletMatch (contentOf raw) = none) →
      build_report text = [] := by
  constructor
  · rfl
  · intro text h
    suffices hfold : ∀ lines : List (List Char),
        (∀ raw ∈ lines, (pyStrip raw).isEmpty = false →
          checkboxScan (contentOf raw) = none ∧ bulletMatch (contentOf raw) = none) →
        ∀ s : RState, lines.foldl processLine s = s by
      unfold build_report
      rw [hfold (pySplitlines text.toList) h initState]
      rfl
    intro lines
    induction lines with
    | nil => intro _ s; rfl
    | cons raw rest ih =>
      intro hl s
      have hraw := hl raw (List.mem_cons_self raw rest)
      have hrest : ∀ r ∈ rest, (pyStrip r).isEmpty = false →
          checkboxScan (contentOf r) = none ∧ bulletMatch (contentOf r) = none :=
        fun r hr => hl r (List.mem_cons_of_mem raw hr)
      have hskip : processLine s raw = s := by
        by_cases hb : (pyStrip raw).isEmpty = true
        · exact processLine_blank s raw hb
        · simp only [Bool.not_eq_true] at hb
          obtain ⟨h1, h2⟩ := hraw hb
          exact processLine_skip s raw (by simp [classify, h1, h2])
      show (rest.foldl processLine (processLine s raw)) = s
      rw [hskip, ih hrest s]

/-- C9 witness: a concrete instance of the second conjunct. -/
theorem empty_or_unmatched_input_yields_empty_witness :
    build_report "hello\nworld, no list items here." = [] :=
  empty_or_unmatched_input_yields_empty.2 "hello\nworld, no list items here." (by decide)

theorem popLoop_col (i : Nat) (st : List (Nat × String)) (c : Bool) (ci : Option Nat) :
    (popLoop i st c ci).2.1 =
      if loopEntered i st.reverse && (c && ciLE i ci) then false else c := by
  show (popLoopRev i st.reverse c ci).2.1 = _
  rw [popLoopRev_snd]
  split <;> rfl

theorem popLoop_ci (i : Nat) (st : List (Nat × String)) (c : Bool) (ci : Option Nat) :
    (popLoop i st c ci).2.2 =
      if loopEntered i st.reverse && (c && ciLE i ci) then none else ci := by
  show (popLoopRev i st.reverse c ci).2.2 = _
  rw [popLoopRev_snd]
  split <;> rfl

/-!  ## Claim theorems (part 2)  -/

/-- C1: whenever a line is classified as a checkbox item, `buildReport`
appends a blank separator line followed by one report line per entry of the
adjusted ancestor stack (ending in the checkbox item itself), the entry at
stack index `i` formatted as two spaces per level, a dash marker and its item
text; with no surviving ancestors the appended block is exactly
`["", "- <text>"]`, and two sibling checkboxes under the same parent each
re-emit their own blank line and the same ancestor prefix. -/
theorem checkbox_emits_ancestor_chain (s : RState) (raw : List Char) (t : String)
    (hb : (pyStrip raw).isEmpty = false)
    (hc : classify (contentOf raw) = some (LineClass.checkbox t)) :
    (processLine s raw).output =
      s.output ++ "" ::
        (((popLoop (indentOf raw) s.stack s.collecting s.collect_indent).1
            ++ [(indentOf raw, t)]).enum.map
          (fun p => String.mk (List.replicate (2 * p.1) ' ') ++ "- " ++ p.2.2))
    ∧ ((popLoop (indentOf raw) s.stack s.collecting s.collect_indent).1 = [] →
        (processLine s raw).output = s.output ++ ["", "- " ++ t])
    ∧ build_report "- P\n  - [ ] a\n  - [ ] b\n" =
        ["", "- P", "  - a", "", "- P", "  - b"] := by
  have hout : (processLine s raw).output = s.output ++ chainOut
      ((popLoop (indentOf raw) s.stack s.collecting s.collect_indent).1
        ++ [(indentOf raw, t)]) := by
    rw [processLine_checkbox s raw t hb hc]
  refine ⟨?_, ?_, by decide⟩
  · rw [hout, chainOut_of_ne_nil _ (by simp)]
    rfl
  · intro h0
    rw [hout, h0]
    rfl

/-- C1 witness: a checkbox line processed from the initial state (no
ancestors) appends exactly the blank separator and its own line. -/
theorem checkbox_emits_ancestor_chain_witness :
    (processLine initState ("- [ ] task".toList)).output =
      initState.output ++ ["", "- " ++ "task"] :=
  (checkbox_emits_ancestor_chain initState ("- [ ] task".toList) "task" rfl rfl).2.1 rfl

/-- C2: a plain-bullet line contributes an output line if and only if, after
the stack adjustment, collecting-children mode is active and the line's
indent lies strictly above the recorded checkbox indent; the single emitted
line is two spaces per level at level (stack length − 1), a dash marker and
the item text. -/
theorem bullet_child_emission_iff (s : RState) (raw : List Char) (t : String)
    (hb : (pyStrip raw).isEmpty = false)
    (hc : classify (contentOf raw) = some (LineClass.bullet t)) :
    ((processLine s raw).output ≠ s.output ↔
      ((popLoop (indentOf raw) s.stack s.collecting s.collect_indent).2.1 = true ∧
        ∃ c, (popLoop (indentOf raw) s.stack s.collecting s.collect_indent).2.2 = some c ∧
          c < indentOf raw))
    ∧ ((processLine s raw).output ≠ s.output →
        (processLine s raw).output = s.output ++
          [String.mk (List.replicate
              (2 * (((popLoop (indentOf raw) s.stack s.collecting s.collect_indent).1
                ++ [(indentOf raw, t)]).length - 1)) ' ') ++ "- " ++ t]) := by
  have hout := processLine_bullet s raw t hb hc
  have hcond :
      ((popLoop (indentOf raw) s.stack s.collecting s.collect_indent).2.1 &&
        (match (popLoop (indentOf raw) s.stack s.collecting s.collect_indent).2.2 with
          | some c => decide (c < indentOf raw)
          | none => false)) = true ↔
      ((popLoop (indentOf raw) s.stack s.collecting s.collect_indent).2.1 = true ∧
        ∃ c, (popLoop (indentOf raw) s.stack s.collecting s.collect_indent).2.2 = some c ∧
          c < indentOf raw) := by
    cases h2 : (popLoop (indentOf raw) s.stack s.collecting s.collect_indent).2.2 with
    | none => simp
    | some c => simp
  have hiff : (processLine s raw).output ≠ s.output ↔
      ((popLoop (indentOf raw) s.stack s.collecting s.collect_indent).2.1 = true ∧
        ∃ c, (popLoop (indentOf raw) s.stack s.collecting s.collect_indent).2.2 = some c ∧
          c < indentOf raw) := by
    rw [← hcond]
    constructor
    · intro hne
      by_contra hEf
      have hEf' :
          ((popLoop (indentOf raw) s.stack s.collecting s.collect_indent).2.1 &&
            (match (popLoop (indentOf raw) s.stack s.collecting s.collect_indent).2.2 with
              | some c => decide (c < indentOf raw)
              | none => false)) = false := by
        revert hEf
        cases ((popLoop (indentOf raw) s.stack s.collecting s.collect_indent).2.1 &&
            (match (popLoop (indentOf raw) s.stack s.collecting s.collect_indent).2.2 with
              | some c => decide (c < indentOf raw)
              | none => false)) <;> simp
      apply hne
      rw [hout]
      simp [hEf']
    · intro hET hne
      rw [hout] at hne
      simp only [hET, if_true] at hne
      exact ne_append_singleton s.output _ hne
  refine ⟨hiff, ?_⟩
  intro hne
  have hET := hcond.mpr (hiff.mp hne)
  rw [hout]
  simp only [hET, if_true]
  rfl

/-- C2 witness: with collecting mode recorded at indent 2 and a bullet line at
indent 4, exactly one child line is emitted at stack level 2. -/
theorem bullet_child_emission_iff_witness :
    (processLine
      { output := [], stack := [(0, "P"), (2, "Root")], collecting := true,
        collect_indent := some 2, root_stack_len := 2 }
      ("    - child".toList)).output = [] ++ ["    - child"] := by
  have h := bullet_child_emission_iff
    { output := [], stack := [(0, "P"), (2, "Root")], collecting := true,
      collect_indent := some 2, root_stack_len := 2 }
    ("    - child".toList) "child" rfl rfl
  have hne := h.1.mpr (by refine ⟨by decide, 2, by decide, by decide⟩)
  have := h.2 hne
  rw [this]
  rfl

/-- C3: for every classified list line, the stack is popped while non-empty
with the current indent ≤ the top entry's indent (so every popped entry has
indent ≥ the current one, and the surviving part is empty or ends strictly
below the current indent), collecting mode is deactivated exactly when the
loop runs and the current indent is also ≤ the recorded collection indent,
and `(indent, itemText)` is then pushed. -/
theorem stack_adjust_pop_push (s : RState) (raw : List Char) (cls : LineClass)
    (hb : (pyStrip raw).isEmpty = false)
    (hc : classify (contentOf raw) = some cls) :
    ∃ dropped : List (Nat × String),
      s.stack = (popLoop (indentOf raw) s.stack s.collecting s.collect_indent).1 ++ dropped
      ∧ (∀ e ∈ dropped, indentOf raw ≤ e.1)
      ∧ ((popLoop (indentOf raw) s.stack s.collecting s.collect_indent).1 = [] ∨
          ∃ e, ((popLoop (indentOf raw) s.stack s.collecting s.collect_indent).1).getLast?
              = some e ∧ e.1 < indentOf raw)
      ∧ (processLine s raw).stack =
          (popLoop (indentOf raw) s.stack s.collecting s.collect_indent).1
            ++ [(indentOf raw, cls.text)]
      ∧ ((popLoop (indentOf raw) s.stack s.collecting s.collect_indent).2.1 = false ↔
          (s.collecting = false ∨
            (dropped ≠ [] ∧ ∃ c, s.collect_indent = some c ∧ indentOf raw ≤ c))) := by
  refine ⟨(s.stack.reverse.takeWhile (fun e => decide (indentOf raw ≤ e.1))).reverse,
    popLoop_decomp _ _ _ _, popLoop_dropped_ge _ _, popLoop_getLast_lt _ _ _ _, ?_, ?_⟩
  · cases cls with
    | checkbox t =>
      rw [processLine_checkbox s raw t hb hc]
      rfl
    | bullet t =>
      rw [processLine_bullet s raw t hb hc]
      rfl
  · rw [popLoop_col]
    constructor
    · intro hfalse
      cases hcol : s.collecting with
      | false => exact Or.inl rfl
      | true =>
        right
        rw [hcol] at hfalse
        cases hL : loopEntered (indentOf raw) s.stack.reverse with
        | false => rw [hL] at hfalse; simp at hfalse
        | true =>
          cases hD : ciLE (indentOf raw) s.collect_indent with
          | false => rw [hL, hD] at hfalse; simp at hfalse
          | true =>
            refine ⟨(loopEntered_iff_dropped_ne (indentOf raw) s.stack).mp hL, ?_⟩
            exact (ciLE_true_iff (indentOf raw) s.collect_indent).mp hD
    · intro h
      rcases h with hcol | ⟨hdne, c, hci, hle⟩
      · rw [hcol]
        simp
      · have hL := (loopEntered_iff_dropped_ne (indentOf raw) s.stack).mpr hdne
        have hD := (ciLE_true_iff (indentOf raw) s.collect_indent).mpr ⟨c, hci, hle⟩
        rw [hL, hD]
        cases s.collecting <;> simp

/-- C3 witness: a checkbox line at indent 2 against a stack whose top also has
indent 2 pops that entry, deactivates collecting mode and pushes itself. -/
theorem stack_adjust_pop_push_witness :
    ∃ dropped : List (Nat × String),
      [(0, "a"), (2, "b")] = (popLoop (indentOf ("  - [ ] z".toList))
          [(0, "a"), (2, "b")] true (some 2)).1 ++ dropped
      ∧ (∀ e ∈ dropped, indentOf ("  - [ ] z".toList) ≤ e.1)
      ∧ ((popLoop (indentOf ("  - [ ] z".toList)) [(0, "a"), (2, "b")] true (some 2)).1 = [] ∨
          ∃ e, ((popLoop (indentOf ("  - [ ] z".toList)) [(0, "a"), (2, "b")] true
              (some 2)).1).getLast? = some e ∧ e.1 < indentOf ("  - [ ] z".toList))
      ∧ (processLine
          { output := [], stack := [(0, "a"), (2, "b")], collecting := true,
            collect_indent := some 2, root_stack_len := 2 } ("  - [ ] z".toList)).stack =
          (popLoop (indentOf ("  - [ ] z".toList)) [(0, "a"), (2, "b")] true (some 2)).1
            ++ [(indentOf ("  - [ ] z".toList), (LineClass.checkbox "z").text)]
      ∧ ((popLoop (indentOf ("  - [ ] z".toList)) [(0, "a"), (2, "b")] true (some 2)).2.1
            = false ↔
          (true = false ∨
            (dropped ≠ [] ∧ ∃ c, (some 2 : Option Nat) = some c ∧
              indentOf ("  - [ ] z".toList) ≤ c))) :=
  stack_adjust_pop_push
    { output := [], stack := [(0, "a"), (2, "b")], collecting := true,
      collect_indent := some 2, root_stack_len := 2 }
    ("  - [ ] z".toList) (LineClass.checkbox "z") rfl rfl

/-- Processing any line preserves strict increase of the stack's indent
levels. -/
theorem processLine_preserves_increasing (s : RState) (raw : List Char)
    (hp : List.Pairwise (fun a b : Nat × String => a.1 < b.1) s.stack) :
    List.Pairwise (fun a b : Nat × String => a.1 < b.1) (processLine s raw).stack := by
  by_cases hb : (pyStrip raw).isEmpty = true
  · rw [processLine_blank s raw hb]; exact hp
  · simp only [Bool.not_eq_true] at hb
    cases hcls : classify (contentOf raw) with
    | none => rw [processLine_skip s raw hcls]; exact hp
    | some cls =>
      have hstack : (processLine s raw).stack =
          (popLoop (indentOf raw) s.stack s.collecting s.collect_indent).1
            ++ [(indentOf raw, cls.text)] := by
        cases cls with
        | checkbox t =>
          rw [processLine_checkbox s raw t hb hcls]
          rfl
        | bullet t =>
          rw [processLine_bullet s raw t hb hcls]
          rfl
      rw [hstack]
      have hdec := popLoop_decomp (indentOf raw) s.stack s.collecting s.collect_indent
      have hsub : (popLoop (indentOf raw) s.stack s.collecting s.collect_indent).1.Sublist
          s.stack := by
        conv_rhs => rw [hdec]
        exact List.sublist_append_left _ _
      have hp0 := hp.sublist hsub
      have hall : ∀ a ∈ (popLoop (indentOf raw) s.stack s.collecting s.collect_indent).1,
          a.1 < indentOf raw := by
        rcases popLoop_getLast_lt (indentOf raw) s.stack s.collecting s.collect_indent with
          h0 | ⟨e, he, hei⟩
        · rw [h0]; intro a ha; exact absurd ha (List.not_mem_nil a)
        · intro a ha
          rcases List.getLast?_eq_some_iff.mp he with ⟨ys, hys⟩
          rw [hys] at ha hp0
          rcases List.mem_append.mp ha with hy | hme
          · have := (List.pairwise_append.mp hp0).2.2 a hy e (List.mem_singleton.mpr rfl)
            exact Nat.lt_trans this hei
          · rw [List.mem_singleton] at hme
            rw [hme]
            exact hei
      refine List.pairwise_append.mpr ⟨hp0, List.pairwise_singleton _ _, ?_⟩
      intro a ha b hbm
      rw [List.mem_singleton] at hbm
      rw [hbm]
      exact hall a ha

/-- C4: after every processed line of any input, the ancestor stack kept by
`buildReport` has strictly increasing indent levels from the bottom (index 0)
to the most recently pushed top. -/
theorem stack_indents_strictly_increasing (text : String) (k : Nat) :
    List.Pairwise (fun a b : Nat × String => a.1 < b.1) (reportState text k).stack := by
  induction k with
  | zero => exact List.Pairwise.nil
  | succ n ih =>
    have hstep : reportState text (n + 1) =
        ((pySplitlines text.toList)[n]?).toList.foldl processLine (reportState text n) := by
      simp only [reportState, List.take_succ, List.foldl_append]
    rw [hstep]
    cases hg : (pySplitlines text.toList)[n]? with
    | none => exact ih
    | some raw => exact processLine_preserves_increasing _ raw ih

/-- Tab expansion as worded by the claim (each tab character expands to 4
spaces, irrespective of column position).  This definition follows the spec
claim's words, for comparison against the embedded code. -/
def fixedTabExpand (l : List Char) : List Char :=
  (l.map (fun c => if c == '\t' then List.replicate 4 ' ' else [c])).flatten

/-- The indent the spec claim describes: leading-space count after replacing
every tab by exactly 4 spaces.  This definition follows the spec claim's
words, for comparison against the embedded code. -/
def fixedTabIndent (raw : List Char) : Nat :=
  (pyRstripRN (fixedTabExpand raw)).length -
    ((pyRstripRN (fixedTabExpand raw)).dropWhile (fun c => c == ' ')).length

/-- Column scan over the leading space/tab run with 4-column tab stops: the
amended indent semantics stated independently of `expandtabs`. -/
def tabStopGo (col : Nat) : List Char → Nat
  | [] => col
  | c :: cs =>
    if c == ' ' then tabStopGo (col + 1) cs
    else if c == '\t' then tabStopGo (col + (4 - col % 4)) cs
    else col

/-- The indent of a line under 4-column tab-stop semantics. -/
def tabStopIndent (raw : List Char) : Nat := tabStopGo 0 raw

theorem length_sub_dropWhile (p : Char → Bool) (l : List Char) :
    l.length - (l.dropWhile p).length = (l.takeWhile p).length := by
  have h : (l.takeWhile p).length + (l.dropWhile p).length = l.length := by
    rw [← List.length_append, List.takeWhile_append_dropWhile]
  omega

theorem rstrip_cons (c : Char) (l : List Char) (h : (c == '\r' || c == '\n') = false) :
    pyRstripRN (c :: l) = c :: pyRstripRN l := by
  unfold pyRstripRN
  rw [List.reverse_cons, List.dropWhile_append]
  by_cases he : (l.reverse.dropWhile (fun c => c == '\r' || c == '\n')).isEmpty = true
  · rw [if_pos he, List.dropWhile_cons, h]
    rw [List.isEmpty_iff] at he
    rw [he]
    rfl
  · rw [if_neg he, List.reverse_append, List.reverse_singleton, List.singleton_append]

theorem rstrip_rep_space (n : Nat) (l : List Char) :
    pyRstripRN (List.replicate n ' ' ++ l) = List.replicate n ' ' ++ pyRstripRN l := by
  induction n with
  | zero => rfl
  | succ m ih =>
    rw [List.replicate_succ, List.cons_append, rstrip_cons ' ' _ (by decide),
      ih, List.cons_append]

theorem takeWhile_rep_space (n : Nat) (l : List Char) :
    (List.replicate n ' ' ++ l).takeWhile (fun c => c == ' ') =
      List.replicate n ' ' ++ l.takeWhile (fun c => c == ' ') := by
  induction n with
  | zero => rfl
  | succ m ih =>
    rw [List.replicate_succ, List.cons_append, List.takeWhile_cons, if_pos (by decide),
      ih, List.cons_append]

theorem takeWhile_space_rstrip_cons_nonspace (c : Char) (l : List Char)
    (h : (c == ' ') = false) :
    (pyRstripRN (c :: l)).takeWhile (fun x => x == ' ') = [] := by
  cases hrn : (c == '\r' || c == '\n') with
  | true =>
    unfold pyRstripRN
    rw [List.reverse_cons, List.dropWhile_append]
    by_cases he : (l.reverse.dropWhile (fun c => c == '\r' || c == '\n')).isEmpty = true
    · rw [if_pos he, List.dropWhile_cons, hrn]
      rfl
    · rw [if_neg he, List.reverse_append, List.reverse_singleton, List.singleton_append,
        List.takeWhile_cons, h]
      rfl
  | false =>
    rw [rstrip_cons c l hrn, List.takeWhile_cons, h]
    rfl

/-- Leading-space count of the normalised line, tracked against the tab-stop
column scan. -/
theorem expandtabs_leading_count (l : List Char) :
    ∀ col, col + ((pyRstripRN (expandtabsGo col l)).takeWhile (fun c => c == ' ')).length =
      tabStopGo col l := by
  induction l with
  | nil => intro col; simp [expandtabsGo, tabStopGo, pyRstripRN]
  | cons c cs ih =>
    intro col
    cases ht : (c == '\t') with
    | true =>
      have hc : c = '\t' := eq_of_beq ht
      subst hc
      have hexp : expandtabsGo col ('\t' :: cs) =
          List.replicate (4 - col % 4) ' ' ++ expandtabsGo (col + (4 - col % 4)) cs := rfl
      rw [hexp, rstrip_rep_space, takeWhile_rep_space, List.length_append,
        List.length_replicate]
      have hts : tabStopGo col ('\t' :: cs) = tabStopGo (col + (4 - col % 4)) cs := rfl
      rw [hts, ← ih (col + (4 - col % 4))]
      omega
    | false =>
      cases hn : (c == '\n') with
      | true =>
        have hc : c = '\n' := eq_of_beq hn
        subst hc
        have hexp : expandtabsGo col ('\n' :: cs) = '\n' :: expandtabsGo 0 cs := rfl
        rw [hexp, takeWhile_space_rstrip_cons_nonspace '\n' _ (by decide)]
        have hts : tabStopGo col ('\n' :: cs) = col := rfl
        rw [hts]
        rfl
      | false =>
        cases hr : (c == '\r') with
        | true =>
          have hc : c = '\r' := eq_of_beq hr
          subst hc
          have hexp : expandtabsGo col ('\r' :: cs) = '\r' :: expandtabsGo 0 cs := rfl
          rw [hexp, takeWhile_space_rstrip_cons_nonspace '\r' _ (by decide)]
          have hts : tabStopGo col ('\r' :: cs) = col := rfl
          rw [hts]
          rfl
        | false =>
          have hexp : expandtabsGo col (c :: cs) = c :: expandtabsGo (col + 1) cs := by
            simp [expandtabsGo, ht, hn, hr]
          have hnotrn : (c == '\r' || c == '\n') = false := by
            rw [hr, hn]
            rfl
          rw [hexp]
          cases hsp : (c == ' ') with
          | true =>
            have hc : c = ' ' := eq_of_beq hsp
            subst hc
            have htw : ((' ' :: pyRstripRN (expandtabsGo (col + 1) cs)).takeWhile
                (fun x => x == ' ')) = ' ' :: ((pyRstripRN (expandtabsGo (col + 1) cs)).takeWhile
                  (fun x => x == ' ')) := rfl
            rw [rstrip_cons ' ' _ hnotrn, htw, List.length_cons]
            have hts : tabStopGo col (' ' :: cs) = tabStopGo (col + 1) cs := rfl
            rw [hts, ← ih (col + 1)]
            omega
          | false =>
            rw [takeWhile_space_rstrip_cons_nonspace c _ hsp]
            have hts : tabStopGo col (c :: cs) = col := by
              unfold tabStopGo
              rw [hsp, ht]
              rfl
            rw [hts]
            rfl

/-- C5 (amended): the indent level used by `buildReport` equals the
leading-space count after 4-column tab-stop expansion: each tab advances to
the next multiple-of-4 column (so a tab after `k` spaces contributes `4 - k %
4` spaces, not always 4). -/
theorem indent_uses_tabstop_expansion (raw : List Char) :
    indentOf raw = tabStopIndent raw := by
  unfold indentOf tabStopIndent normLine pyExpandtabs4
  rw [length_sub_dropWhile]
  have := expandtabs_leading_count raw 0
  rw [Nat.zero_add] at this
  exact this

/-- C5 counterexample: on a line whose leading whitespace is a space followed
by a tab, `buildReport`'s indent (Python `expandtabs(4)`, i.e. tab stops) is
4, while the claimed per-tab fixed 4-space expansion gives 5; on real input
this changes which ancestors survive the stack adjustment. -/
theorem indent_fixed_tab_counterexample :
    indentOf [' ', '\t', 'x'] = 4 ∧
    fixedTabIndent [' ', '\t', 'x'] = 5 ∧
    ¬ (∀ raw : List Char, indentOf raw = fixedTabIndent raw) ∧
    build_report "    - A\n \t- [ ] x\n" = ["", "- x"] := by
  refine ⟨by decide, by decide, fun h => absurd (h [' ', '\t', 'x']) (by decide), by decide⟩

theorem popLoop_col_true (i : Nat) (st : List (Nat × String)) (c : Bool) (ci : Option Nat)
    (h : (popLoop i st c ci).2.1 = true) :
    c = true ∧ (popLoop i st c ci).2.2 = ci := by
  rw [popLoop_col] at h
  rw [popLoop_ci]
  cases hcond : (loopEntered i st.reverse && (c && ciLE i ci)) with
  | true =>
    rw [hcond] at h
    simp at h
  | false =>
    rw [hcond] at h
    simp at h
    exact ⟨h, by simp⟩

/-- The indent of a line when it is classified as a checkbox; `none`
otherwise. -/
def lineCheckboxIndent (raw : List Char) : Option Nat :=
  if (pyStrip raw).isEmpty then none
  else
    match classify (contentOf raw) with
    | some (LineClass.checkbox _) => some (indentOf raw)
    | _ => none

/-- The indent of the most recent checkbox line of a line sequence. -/
def lastCheckboxIndent (lines : List (List Char)) : Option Nat :=
  lines.foldl (fun acc raw =>
    match lineCheckboxIndent raw with
    | some i => some i
    | none => acc) none

/-- When collecting mode is active, the recorded collection indent is the
indent of the most recently seen checkbox line. -/
def CollectInv (lines : List (List Char)) (s : RState) : Prop :=
  s.collecting = true →
    ∃ c, s.collect_indent = some c ∧ lastCheckboxIndent lines = some c

theorem lastCheckboxIndent_append (lines : List (List Char)) (raw : List Char) :
    lastCheckboxIndent (lines ++ [raw]) =
      match lineCheckboxIndent raw with
      | some i => some i
      | none => lastCheckboxIndent lines := by
  unfold lastCheckboxIndent
  rw [List.foldl_append]
  rfl

theorem collectInv_step (lines : List (List Char)) (s : RState) (raw : List Char)
    (hinv : CollectInv lines s) : CollectInv (lines ++ [raw]) (processLine s raw) := by
  by_cases hb : (pyStrip raw).isEmpty = true
  · rw [processLine_blank s raw hb]
    intro hcol
    obtain ⟨c, h1, h2⟩ := hinv hcol
    refine ⟨c, h1, ?_⟩
    rw [lastCheckboxIndent_append]
    have hl : lineCheckboxIndent raw = none := by simp [lineCheckboxIndent, hb]
    rw [hl]
    exact h2
  · simp only [Bool.not_eq_true] at hb
    cases hcls : classify (contentOf raw) with
    | none =>
      rw [processLine_skip s raw hcls]
      intro hcol
      obtain ⟨c, h1, h2⟩ := hinv hcol
      refine ⟨c, h1, ?_⟩
      rw [lastCheckboxIndent_append]
      have hl : lineCheckboxIndent raw = none := by simp [lineCheckboxIndent, hb, hcls]
      rw [hl]
      exact h2
    | some cls =>
      cases cls with
      | checkbox t =>
        rw [processLine_checkbox s raw t hb hcls]
        intro _
        refine ⟨indentOf raw, rfl, ?_⟩
        rw [lastCheckboxIndent_append]
        have hl : lineCheckboxIndent raw = some (indentOf raw) := by
          simp [lineCheckboxIndent, hb, hcls]
        rw [hl]
      | bullet t =>
        rw [processLine_bullet s raw t hb hcls]
        intro hcol
        have hcol' : (popLoop (indentOf raw) s.stack s.collecting s.collect_indent).2.1
            = true := hcol
        obtain ⟨hc, hci⟩ :=
          popLoop_col_true (indentOf raw) s.stack s.collecting s.collect_indent hcol'
        obtain ⟨c, h1, h2⟩ := hinv hc
        refine ⟨c, ?_, ?_⟩
        · show (popLoop (indentOf raw) s.stack s.collecting s.collect_indent).2.2 = some c
          rw [hci]
          exact h1
        · rw [lastCheckboxIndent_append]
          have hl : lineCheckboxIndent raw = none := by
            simp [lineCheckboxIndent, hb, hcls]
          rw [hl]
          exact h2

theorem collectInv_all (lines : List (List Char)) :
    CollectInv lines (lines.foldl processLine initState) := by
  suffices h : ∀ (ls pre : List (List Char)) (s : RState), CollectInv pre s →
      CollectInv (pre ++ ls) (ls.foldl processLine s) by
    have h0 : CollectInv [] initState := fun hc => absurd hc (by simp [initState])
    have := h lines [] initState h0
    simpa using this
  intro ls
  induction ls with
  | nil =>
    intro pre s hs
    simpa using hs
  | cons l ls ih =>
    intro pre s hs
    have h1 := collectInv_step pre s l hs
    have h2 := ih (pre ++ [l]) (processLine s l) h1
    rw [List.append_assoc, List.singleton_append] at h2
    exact h2

/-- C7: a plain-bullet line that is not a descendant of any checkbox (its
indent is ≤ the most recent checkbox's indent, or no checkbox was seen yet)
never contributes any output line. -/
theorem non_descendant_bullets_silent (text : String) (k : Nat) (raw : List Char) (t : String)
    (hline : (pySplitlines text.toList)[k]? = some raw)
    (hb : (pyStrip raw).isEmpty = false)
    (hc : classify (contentOf raw) = some (LineClass.bullet t))
    (hanc : lastCheckboxIndent ((pySplitlines text.toList).take k) = none ∨
        ∃ c, lastCheckboxIndent ((pySplitlines text.toList).take k) = some c ∧
          indentOf raw ≤ c) :
    (reportState text (k + 1)).output = (reportState text k).output := by
  have hstep : reportState text (k + 1) = processLine (reportState text k) raw := by
    simp only [reportState, List.take_succ, List.foldl_append, hline]
    rfl
  have hinv : CollectInv ((pySplitlines text.toList).take k) (reportState text k) :=
    collectInv_all _
  rw [hstep, processLine_bullet _ raw t hb hc]
  have hemit : ((popLoop (indentOf raw) (reportState text k).stack
      (reportState text k).collecting (reportState text k).collect_indent).2.1 &&
      (match (popLoop (indentOf raw) (reportState text k).stack
          (reportState text k).collecting (reportState text k).collect_indent).2.2 with
        | some c => decide (c < indentOf raw)
        | none => false)) = false := by
    cases hcol : (popLoop (indentOf raw) (reportState text k).stack
        (reportState text k).collecting (reportState text k).collect_indent).2.1 with
    | false => simp
    | true =>
      obtain ⟨hctrue, hci⟩ := popLoop_col_true _ _ _ _ hcol
      obtain ⟨c, h1, h2⟩ := hinv hctrue
      rw [hci, h1]
      rcases hanc with hnone | ⟨c', hc', hle⟩
      · rw [h2] at hnone
        exact absurd hnone (by simp)
      · rw [h2] at hc'
        have hcc : c = c' := by injection hc'
        subst hcc
        have hnl : ¬(c < indentOf raw) := Nat.not_lt.mpr hle
        simp [hnl]
  simp only [hemit]
  simp

/-- C7 witness: the second of two top-level bullets, with no checkbox seen
before it, adds nothing to the output. -/
theorem non_descendant_bullets_silent_witness :
    (reportState "- a\n- b\n" 2).output = (reportState "- a\n- b\n" 1).output :=
  non_descendant_bullets_silent "- a\n- b\n" 1 ("- b".toList) "b" rfl rfl rfl (Or.inl rfl)

theorem wsClose_some_iff (l : List Char) : ∀ rest,
    wsClose l = some rest ↔
      ∃ w, (∀ ch ∈ w, pyIsSpace ch = true) ∧ l = w ++ ']' :: rest := by
  induction l with
  | nil =>
    intro rest
    constructor
    · intro h
      simp [wsClose] at h
    · rintro ⟨w, _, hl⟩
      exact absurd hl (by cases w <;> simp)
  | cons c cs ih =>
    intro rest
    constructor
    · intro h
      by_cases hcb : (c == ']') = true
      · have hc : c = ']' := eq_of_beq hcb
        subst hc
        have hcs : cs = rest := by simpa [wsClose] using h
        subst hcs
        exact ⟨[], by simp, rfl⟩
      · by_cases hsp : pyIsSpace c = true
        · have h' : wsClose cs = some rest := by simpa [wsClose, hcb, hsp] using h
          obtain ⟨w, hw, hl⟩ := (ih rest).mp h'
          refine ⟨c :: w, ?_, by rw [hl]; rfl⟩
          intro ch hch
          rcases List.mem_cons.mp hch with h1 | h1
          · rw [h1]; exact hsp
          · exact hw ch h1
        · have hnone : wsClose (c :: cs) = none := by
            simp [wsClose, hcb, hsp]
          rw [hnone] at h
          exact absurd h (by simp)
    · rintro ⟨w, hw, hl⟩
      cases w with
      | nil =>
        simp only [List.nil_append] at hl
        injection hl with h1 h2
        subst h1
        subst h2
        simp [wsClose]
      | cons ch w' =>
        simp only [List.cons_append] at hl
        injection hl with h1 h2
        subst h1
        subst h2
        have hch := hw c (List.mem_cons_self c w')
        have hne : (c == ']') = false := by
          cases hb : (c == ']') with
          | true =>
            have hcq : c = ']' := eq_of_beq hb
            rw [hcq] at hch
            exact absurd hch (by decide)
          | false => rfl
        rw [show wsClose (c :: (w' ++ ']' :: rest)) = wsClose (w' ++ ']' :: rest) from by
          simp [wsClose, hne, hch]]
        exact (ih rest).mpr ⟨w', fun x hx => hw x (List.mem_cons_of_mem c hx), rfl⟩

theorem checkboxScan_isSome_of_token (content : List Char) :
    ∀ a w b, content = a ++ '[' :: (w ++ ']' :: b) → (∀ ch ∈ w, pyIsSpace ch = true) →
      (checkboxScan content).isSome = true := by
  induction content with
  | nil =>
    intro a w b h _
    exact absurd h (by cases a <;> simp)
  | cons c cs ih =>
    intro a w b h hw
    cases a with
    | nil =>
      simp only [List.nil_append] at h
      injection h with h1 h2
      subst h1
      subst h2
      have hws : wsClose (w ++ ']' :: b) = some b := (wsClose_some_iff _ b).mpr ⟨w, hw, rfl⟩
      simp [checkboxScan, hws]
    | cons a0 a' =>
      simp only [List.cons_append] at h
      injection h with h1 h2
      subst h1
      have hrec := ih a' w b h2 hw
      by_cases hcb : (c == '[') = true
      · cases hws : wsClose cs with
        | some p => simp [checkboxScan, hcb, hws]
        | none =>
          cases hsc : checkboxScan cs with
          | some pq => simp [checkboxScan, hcb, hws, hsc]
          | none =>
            rw [hsc] at hrec
            exact absurd hrec (by simp)
      · cases hsc : checkboxScan cs with
        | some pq => simp [checkboxScan, hcb, hsc]
        | none =>
          rw [hsc] at hrec
          exact absurd hrec (by simp)

theorem checkboxScan_some_iff (content : List Char) :
    ∀ pre post,
      checkboxScan content = some (pre, post) ↔
        ((∃ w, (∀ ch ∈ w, pyIsSpace ch = true) ∧
            content = pre ++ '[' :: (w ++ ']' :: post)) ∧
          ∀ a w' b, content = a ++ '[' :: (w' ++ ']' :: b) →
            (∀ ch ∈ w', pyIsSpace ch = true) → pre.length ≤ a.length) := by
  induction content with
  | nil =>
    intro pre post
    constructor
    · intro h
      simp [checkboxScan] at h
    · rintro ⟨⟨w, _, hl⟩, _⟩
      exact absurd hl (by cases pre <;> simp)
  | cons c cs ih =>
    intro pre post
    by_cases hcb : (c == '[') = true
    · have hc : c = '[' := eq_of_beq hcb
      subst hc
      cases hws : wsClose cs with
      | some post' =>
        have hscan : checkboxScan ('[' :: cs) = some ([], post') := by
          simp [checkboxScan, hws]
        rw [hscan]
        constructor
        · intro h
          injection h with h1
          injection h1 with hp hq
          subst hp
          subst hq
          obtain ⟨w0, hw0, hcs0⟩ := (wsClose_some_iff cs post').mp hws
          refine ⟨⟨w0, hw0, by rw [hcs0]; rfl⟩, ?_⟩
          intro a w' b _ _
          simp
        · rintro ⟨⟨w, hw, hl⟩, hmin⟩
          obtain ⟨w0, hw0, hcs0⟩ := (wsClose_some_iff cs post').mp hws
          have h0 : '[' :: cs = [] ++ '[' :: (w0 ++ ']' :: post') := by rw [hcs0]; rfl
          have hplen := hmin [] w0 post' h0 hw0
          have hpre : pre = [] := by
            cases pre with
            | nil => rfl
            | cons x xs => simp at hplen
          subst hpre
          simp only [List.nil_append] at hl
          injection hl with h1 h2
          have hclose : wsClose cs = some post := (wsClose_some_iff cs post).mpr ⟨w, hw, h2⟩
          rw [hws] at hclose
          injection hclose with hpp
          rw [hpp]
      | none =>
        cases hsc : checkboxScan cs with
        | some pq =>
          have hscan : checkboxScan ('[' :: cs) = some ('[' :: pq.1, pq.2) := by
            simp [checkboxScan, hws, hsc]
          rw [hscan]
          constructor
          · intro h
            injection h with h1
            injection h1 with hp hq
            have hcs := (ih pq.1 pq.2).mp (by rw [hsc])
            obtain ⟨⟨w, hw, hl⟩, hmin⟩ := hcs
            constructor
            · refine ⟨w, hw, ?_⟩
              rw [← hp, ← hq, hl]
              rfl
            · intro a w' b hdec hw'
              cases a with
              | nil =>
                simp only [List.nil_append] at hdec
                injection hdec with h1 h2
                have hclose : wsClose cs = some b := (wsClose_some_iff cs b).mpr ⟨w', hw', h2⟩
                rw [hws] at hclose
                exact absurd hclose (by simp)
              | cons a0 a' =>
                simp only [List.cons_append] at hdec
                injection hdec with h1 h2
                have := hmin a' w' b h2 hw'
                rw [← hp]
                simp only [List.length_cons]
                omega
          · rintro ⟨⟨w, hw, hl⟩, hmin⟩
            cases pre with
            | nil =>
              simp only [List.nil_append] at hl
              injection hl with h1 h2
              have hclose : wsClose cs = some post := (wsClose_some_iff cs post).mpr ⟨w, hw, h2⟩
              rw [hws] at hclose
              exact absurd hclose (by simp)
            | cons p0 p' =>
              simp only [List.cons_append] at hl
              injection hl with hp0 hcs'
              have hmin' : ∀ a w' b, cs = a ++ '[' :: (w' ++ ']' :: b) →
                  (∀ ch ∈ w', pyIsSpace ch = true) → p'.length ≤ a.length := by
                intro a w' b hdec hw'
                have hcont : '[' :: cs = ('[' :: a) ++ '[' :: (w' ++ ']' :: b) := by
                  rw [hdec]
                  rfl
                have := hmin ('[' :: a) w' b hcont hw'
                simpa using this
              have hres := (ih p' post).mpr ⟨⟨w, hw, hcs'⟩, hmin'⟩
              rw [hsc] at hres
              injection hres with hpq
              rw [hpq, ← hp0]
        | none =>
          have hscan : checkboxScan ('[' :: cs) = none := by
            simp [checkboxScan, hws, hsc]
          rw [hscan]
          constructor
          · intro h
            exact absurd h (by simp)
          · rintro ⟨⟨w, hw, hl⟩, _⟩
            have := checkboxScan_isSome_of_token ('[' :: cs) pre w post hl hw
            rw [hscan] at this
            exact absurd this (by simp)
    · cases hsc : checkboxScan cs with
      | some pq =>
        have hscan : checkboxScan (c :: cs) = some (c :: pq.1, pq.2) := by
          simp [checkboxScan, hcb, hsc]
        rw [hscan]
        constructor
        · intro h
          injection h with h1
          injection h1 with hp hq
          have hcs := (ih pq.1 pq.2).mp (by rw [hsc])
          obtain ⟨⟨w, hw, hl⟩, hmin⟩ := hcs
          constructor
          · refine ⟨w, hw, ?_⟩
            rw [← hp, ← hq, hl]
            rfl
          · intro a w' b hdec hw'
            cases a with
            | nil =>
              simp only [List.nil_append] at hdec
              injection hdec with h1 h2
              rw [h1] at hcb
              exact absurd hcb (by simp)
            | cons a0 a' =>
              simp only [List.cons_append] at hdec
              injection hdec with h1 h2
              have := hmin a' w' b h2 hw'
              rw [← hp]
              simp only [List.length_cons]
              omega
        · rintro ⟨⟨w, hw, hl⟩, hmin⟩
          cases pre with
          | nil =>
            simp only [List.nil_append] at hl
            injection hl with h1 h2
            rw [h1] at hcb
            exact absurd hcb (by simp)
          | cons p0 p' =>
            simp only [List.cons_append] at hl
            injection hl with hp0 hcs'
            have hmin' : ∀ a w' b, cs = a ++ '[' :: (w' ++ ']' :: b) →
                (∀ ch ∈ w', pyIsSpace ch = true) → p'.length ≤ a.length := by
              intro a w' b hdec hw'
              have hcont : c :: cs = (c :: a) ++ '[' :: (w' ++ ']' :: b) := by
                rw [hdec]
                rfl
              have := hmin (c :: a) w' b hcont hw'
              simpa using this
            have hres := (ih p' post).mpr ⟨⟨w, hw, hcs'⟩, hmin'⟩
            rw [hsc] at hres
            injection hres with hpq
            rw [hpq, ← hp0]
      | none =>
        have hscan : checkboxScan (c :: cs) = none := by
          simp [checkboxScan, hcb, hsc]
        rw [hscan]
        constructor
        · intro h
          exact absurd h (by simp)
        · rintro ⟨⟨w, hw, hl⟩, _⟩
          have := checkboxScan_isSome_of_token (c :: cs) pre w post hl hw
          rw [hscan] at this
          exact absurd this (by simp)

/-- C10: a line's content is classified as a checkbox exactly when it contains
an opening bracket, zero or more whitespace characters and a closing bracket
anywhere (the scan returning the text around the FIRST such token, so a
filled checkbox before it does not block the match), and the item text joins
the trimmed, marker-stripped text before the token with the trimmed text
after it: by one space when both are non-empty, otherwise whichever is
non-empty, the empty string when both are empty. -/
theorem checkbox_classification_characterization :
    (∀ content pre post : List Char,
      checkboxScan content = some (pre, post) ↔
        ((∃ w, (∀ ch ∈ w, pyIsSpace ch = true) ∧
            content = pre ++ '[' :: (w ++ ']' :: post)) ∧
          ∀ a w' b, content = a ++ '[' :: (w' ++ ']' :: b) →
            (∀ ch ∈ w', pyIsSpace ch = true) → pre.length ≤ a.length))
    ∧ (∀ content pq, checkboxScan content = some pq →
        classify content = some (LineClass.checkbox (String.mk (
          if !(stripMarker (pyStrip pq.1)).isEmpty && !(pyStrip pq.2).isEmpty
          then stripMarker (pyStrip pq.1) ++ ' ' :: pyStrip pq.2
          else if !(stripMarker (pyStrip pq.1)).isEmpty then stripMarker (pyStrip pq.1)
          else pyStrip pq.2))))
    ∧ build_report "- [x] done [ ] later" = ["", "- [x] done later"] := by
  refine ⟨fun content pre post => checkboxScan_some_iff content pre post, ?_, by decide⟩
  intro content pq h
  simp only [classify, h]

/-- C10 witness: a concrete checkbox line classified through the
characterisation. -/
theorem checkbox_classification_characterization_witness :
    classify ("- [ ] x".toList) = some (LineClass.checkbox "x") :=
  checkbox_classification_characterization.2.1 ("- [ ] x".toList)
    (['-', ' '], [' ', 'x']) rfl
